import Mathlib

/-!
Verification of the load-generation engine of the chain-llm-cloud repository.

The development shallowly embeds the engine (src/loadgen/loadgen.py), the
offline summariser (src/loadgen/make_summary.py) and the result combiner
(src/analysis/combine_results.py).  Wall-clock instants and latencies are
modelled as exact rationals; Python `sorted` is modelled by insertion sort
(a stable ascending sort); Python `round` (banker's rounding, ties to even)
is modelled by `pyRound`.  The queue/worker/sink concurrency is modelled by
an interleaving-insensitive event trace: an `Event.enqueue` is one
`queue.put` by the paced enqueuer, an `Event.record` is one worker appending
one outcome, and the blocking `queue.get` is reflected in `stepEv` ignoring
a record when nothing is pending.
-/

namespace LoadGen

/-- One row appended by a worker to the shared `results` list in
`loadgen.py`: the tuple `(ok, status, latency_ms, error)`. -/
structure RequestOutcome where
  success : Bool
  status : ℤ
  latency_ms : ℚ
  error : String
deriving Repr, DecidableEq

/-- The outcome of the single HTTP attempt a worker makes for one work item:
either a response with a status code, read completely at time `t_done`, or a
raised transport exception observed at time `t_fail`. -/
inductive ReqResult where
  | ok (status : ℤ) (t_done : ℚ)
  | exn (msg : String) (t_fail : ℚ)
deriving Repr, DecidableEq

/-- Body of `worker` in `loadgen.py` for one dequeued item.  `send_ts` is the
timestamp stored in the queue item (the enqueuer's `now` at `queue.put`);
`start` is `time.perf_counter()` read just before `session.post`.  On a
response the code records `(resp.status == 200, resp.status,
(now - start) * 1000, "")`; on an exception it records
`(False, 0, (now - send_ts) * 1000, str(e))`. -/
def workerHandle (send_ts start : ℚ) : ReqResult → RequestOutcome
  | ReqResult.ok status t_done =>
      { success := status == 200, status := status,
        latency_ms := (t_done - start) * 1000, error := "" }
  | ReqResult.exn msg t_fail =>
      { success := false, status := 0,
        latency_ms := (t_fail - send_ts) * 1000, error := msg }

/-- One work item as consumed by a worker: its queued timestamp, the time the
worker started the attempt, and the result of that single attempt. -/
structure ConsumedItem where
  send_ts : ℚ
  start : ℚ
  result : ReqResult
deriving Repr, DecidableEq

/-- The sequence of outcomes a worker appends while consuming a sequence of
items: exactly one `workerHandle` outcome per consumed item (the `worker`
loop makes one attempt per item and appends once in either branch). -/
def workerRun (items : List ConsumedItem) : List RequestOutcome :=
  items.map (fun it => workerHandle it.send_ts it.start it.result)

/-- `percentile` from `loadgen.py`: `None` on empty input, the single element
on a singleton, otherwise the value at index `floor(p * (len - 1))` of the
(already sorted) input. -/
def percentile (sorted_vals : List ℚ) (p : ℚ) : Option ℚ :=
  if sorted_vals = [] then none
  else if sorted_vals.length = 1 then some (sorted_vals.getD 0 0)
  else some (sorted_vals.getD (⌊p * ((sorted_vals.length : ℚ) - 1)⌋).toNat 0)

end LoadGen

namespace Combine

/-- `percentile` from `combine_results.py`: `None` on empty input, first
element for `p ≤ 0`, last element for `p ≥ 1`, otherwise the value at index
`floor(p * (len - 1))`. -/
def percentile (sorted_vals : List ℚ) (p : ℚ) : Option ℚ :=
  if sorted_vals = [] then none
  else if p ≤ 0 then some (sorted_vals.getD 0 0)
  else if 1 ≤ p then some (sorted_vals.getD (sorted_vals.length - 1) 0)
  else some (sorted_vals.getD (⌊p * ((sorted_vals.length : ℚ) - 1)⌋).toNat 0)

end Combine

namespace MakeSummary

/-- Python 3 `round` to the nearest integer, ties going to the even
integer. -/
def pyRound (x : ℚ) : ℤ :=
  if Int.fract x < 1 / 2 then ⌊x⌋
  else if 1 / 2 < Int.fract x then ⌊x⌋ + 1
  else if 2 ∣ ⌊x⌋ then ⌊x⌋ else ⌊x⌋ + 1

/-- `pctl` from `make_summary.py`: `None` on empty input, otherwise sort the
input ascending and return the value at index `round((p/100) * (len - 1))`
(Python `round`, not `floor`). -/
def pctl (xs : List ℚ) (p : ℚ) : Option ℚ :=
  if xs = [] then none
  else
    let ys := List.insertionSort (· ≤ ·) xs
    some (ys.getD (pyRound ((p / 100) * ((ys.length : ℚ) - 1))).toNat 0)

end MakeSummary

namespace LoadGen

/-- Per-point summary record built at the end of `run_point` (the subset of
fields the specification constrains). -/
structure RunSummary where
  rps_target : ℕ
  duration_s : ℚ
  sent : ℕ
  completed : ℕ
  ok : ℕ
  errors : ℕ
  ok_rps : ℚ
  err_pct : ℚ
  avg_ms : Option ℚ
  p50_ms : Option ℚ
  p90_ms : Option ℚ
  p95_ms : Option ℚ
  p99_ms : Option ℚ
deriving Repr, DecidableEq

/-- The statistics block of `run_point` in `loadgen.py`: given the `sent`
count returned by the measured `paced_enqueue` and the `results` list present
at the drain deadline, compute `completed = len(results)`,
`oks = sum(1 for ok, *_ in results if ok)`, `errs = completed - oks`,
`ok_rps = oks / DURATION_SECONDS`, the guarded error rate, and
mean/percentiles over the ascending sort of the successful latencies. -/
def mkSummary (rps : ℕ) (duration : ℚ) (sent : ℕ)
    (results : List RequestOutcome) : RunSummary :=
  let completed := results.length
  let oks := (results.filter (fun o => o.success)).length
  let errs := completed - oks
  let ok_lats :=
    List.insertionSort (· ≤ ·)
      ((results.filter (fun o => o.success)).map (fun o => o.latency_ms))
  { rps_target := rps
    duration_s := duration
    sent := sent
    completed := completed
    ok := oks
    errors := errs
    ok_rps := (oks : ℚ) / duration
    err_pct := if completed = 0 then 0 else ((errs : ℚ) / (completed : ℚ)) * 100
    avg_ms := if ok_lats = [] then none else some (ok_lats.sum / (ok_lats.length : ℚ))
    p50_ms := percentile ok_lats (50 / 100)
    p90_ms := percentile ok_lats (90 / 100)
    p95_ms := percentile ok_lats (95 / 100)
    p99_ms := percentile ok_lats (99 / 100) }

/-- An observable event of one measurement phase: the paced enqueuer putting
one timestamped item on the queue, or a worker appending one outcome to the
shared results list. -/
inductive Event where
  | enqueue (t : ℚ)
  | record (o : RequestOutcome)
deriving Repr, DecidableEq

/-- Abstract state of the queue-and-sink system: how many items were put on
the queue, how many are still pending (queued or in flight), and the ordered
results list. -/
structure SinkState where
  sent : ℕ
  pending : ℕ
  results : List RequestOutcome
deriving Repr, DecidableEq

/-- One event of the queue/worker system.  A worker can only append an
outcome after having dequeued an item, so a `record` with nothing pending
leaves the state unchanged (the blocking `queue.get` never returns then). -/
def stepEv (s : SinkState) : Event → SinkState
  | Event.enqueue _ => { s with sent := s.sent + 1, pending := s.pending + 1 }
  | Event.record o =>
      if s.pending = 0 then s
      else { s with pending := s.pending - 1, results := s.results ++ [o] }

/-- Run a trace of events from a given state. -/
def runEvents (es : List Event) (s : SinkState) : SinkState :=
  es.foldl stepEv s

/-- The `WARMUP → MEASURE` transition of `run_point`: `results.clear()`
empties the sink, and the measured `sent` counter starts at zero because it
is the return value of the second `paced_enqueue` call alone. -/
def clearSink (s : SinkState) : SinkState :=
  { sent := 0, pending := s.pending, results := [] }

/-- The sink state at the drain deadline of the measured phase, threaded
through the warmup trace, the clear, and the measured trace. -/
def measuredPhase (warmup measured : List Event) : SinkState :=
  runEvents measured (clearSink (runEvents warmup ⟨0, 0, []⟩))

/-- The drain-timeout scenario of the specification: 100 items enqueued
during the measured phase, and only the first 95 recorded by the drain
deadline (the last 5 are still in flight when the timeout fires). -/
def drainScenarioState (os : List RequestOutcome) (t : ℚ) : SinkState :=
  runEvents (List.replicate 100 (Event.enqueue t) ++ os.map Event.record) ⟨0, 0, []⟩

/-- State of the `paced_enqueue` loop: the `next_send` deadline, the `sent`
counter, and the timestamps of the items put on the queue. -/
structure PaceState where
  next_send : ℚ
  sent : ℕ
  items : List ℚ
deriving Repr, DecidableEq

/-- One iteration body of the `paced_enqueue` loop at clock reading `now`:
if `now >= next_send`, put an item stamped `now`, increment `sent` and
advance `next_send` by the fixed `interval`; otherwise only sleep. -/
def pacedStep (interval now : ℚ) (s : PaceState) : PaceState :=
  if s.next_send ≤ now then
    { next_send := s.next_send + interval, sent := s.sent + 1,
      items := s.items ++ [now] }
  else s

/-- The `paced_enqueue` while-loop over a stream of clock readings, one
reading per iteration (used both for the `now < end` test and for the send
test); the loop exits at the first reading at or past `endT`. -/
def pacedLoop (interval endT : ℚ) : List ℚ → PaceState → PaceState
  | [], s => s
  | now :: rest, s =>
      if now < endT then pacedLoop interval endT rest (pacedStep interval now s)
      else s

/-- `paced_enqueue` from `loadgen.py`: `interval = 1 / rps`,
`end = start + seconds`, `next_send` initialised to the starting clock,
returning the `sent` counter. -/
def paced_enqueue (rps seconds start : ℚ) (clocks : List ℚ) : ℕ :=
  (pacedLoop (1 / rps) (start + seconds) clocks
    { next_send := start, sent := 0, items := [] }).sent

/-- Clock readings of an ideal run at rate 10 for 2 seconds: the scheduler
wakes exactly at each `next_send` deadline `k / 10` and item emission takes
no time, with a final reading at the end instant. -/
def idealClocks : List ℚ :=
  [0, 1/10, 2/10, 3/10, 4/10, 5/10, 6/10, 7/10, 8/10, 9/10, 1,
   11/10, 12/10, 13/10, 14/10, 15/10, 16/10, 17/10, 18/10, 19/10, 2]

/-- Summary of a whole measured phase modelled as an event trace: the final
sink state feeds `mkSummary` exactly as `run_point` feeds it from `sent` and
`results`. -/
def runPointSummary (rps : ℕ) (duration : ℚ) (es : List Event) : RunSummary :=
  mkSummary rps duration (runEvents es ⟨0, 0, []⟩).sent (runEvents es ⟨0, 0, []⟩).results

end LoadGen

namespace LoadGen

lemma getD_mem_of_lt (xs : List ℚ) (i : ℕ) (h : i < xs.length) :
    xs.getD i 0 ∈ xs := by
  rw [List.getD_eq_getElem _ _ h]
  exact List.getElem_mem h

lemma sorted_getD_mono (xs : List ℚ) (hs : xs.Sorted (· ≤ ·)) {i j : ℕ}
    (hij : i ≤ j) (hj : j < xs.length) : xs.getD i 0 ≤ xs.getD j 0 := by
  have hi : i < xs.length := lt_of_le_of_lt hij hj
  rw [List.getD_eq_getElem _ _ hi, List.getD_eq_getElem _ _ hj]
  rcases lt_or_eq_of_le hij with hlt | rfl
  · have := hs.rel_get_of_lt (a := ⟨i, hi⟩) (b := ⟨j, hj⟩) (by exact hlt)
    simpa using this
  · exact le_refl _

lemma floor_idx_lt {p : ℚ} {n : ℕ} (hn : 1 ≤ n) (h1 : p ≤ 1) :
    (⌊p * ((n : ℚ) - 1)⌋).toNat < n := by
  have hn1 : (0 : ℚ) ≤ (n : ℚ) - 1 := by
    have : (1 : ℚ) ≤ (n : ℚ) := by exact_mod_cast hn
    linarith
  have hle : p * ((n : ℚ) - 1) ≤ (n : ℚ) - 1 := by nlinarith
  have hcast : ((n : ℚ) - 1) = (((n : ℤ) - 1 : ℤ) : ℚ) := by push_cast; ring
  have hfl : ⌊p * ((n : ℚ) - 1)⌋ ≤ (n : ℤ) - 1 := by
    calc ⌊p * ((n : ℚ) - 1)⌋ ≤ ⌊((n : ℚ) - 1)⌋ := Int.floor_le_floor hle
    _ = (n : ℤ) - 1 := by rw [hcast, Int.floor_intCast]
  have : (⌊p * ((n : ℚ) - 1)⌋).toNat ≤ ((n : ℤ) - 1).toNat := Int.toNat_le_toNat hfl
  omega

lemma floor_idx_mono {p q : ℚ} {n : ℕ} (hn : 1 ≤ n) (hpq : p ≤ q) :
    (⌊p * ((n : ℚ) - 1)⌋).toNat ≤ (⌊q * ((n : ℚ) - 1)⌋).toNat := by
  have hn1 : (0 : ℚ) ≤ (n : ℚ) - 1 := by
    have : (1 : ℚ) ≤ (n : ℚ) := by exact_mod_cast hn
    linarith
  exact Int.toNat_le_toNat (Int.floor_le_floor (by nlinarith))

/-- The two in-range branches of `percentile` collapse to one indexing law:
on any non-empty input it returns the value at index
`floor(p * (len - 1))` (on a singleton that index is `0` for every `p`). -/
lemma percentile_eq (xs : List ℚ) (h : xs ≠ []) (p : ℚ) :
    percentile xs p = some (xs.getD (⌊p * ((xs.length : ℚ) - 1)⌋).toNat 0) := by
  unfold percentile
  rw [if_neg h]
  by_cases h1 : xs.length = 1
  · rw [if_pos h1]
    have : ((xs.length : ℚ) - 1) = 0 := by rw [h1]; norm_num
    rw [this, mul_zero, Int.floor_zero, Int.toNat_zero]
  · rw [if_neg h1]

lemma sink_invariant (es : List Event) (s : SinkState)
    (h : s.results.length + s.pending = s.sent) :
    (runEvents es s).results.length + (runEvents es s).pending
      = (runEvents es s).sent := by
  induction es generalizing s with
  | nil => exact h
  | cons e rest ih =>
    show (runEvents rest (stepEv s e)).results.length + _ = _
    apply ih
    cases e with
    | enqueue t => simp [stepEv]; omega
    | record o =>
      by_cases hp : s.pending = 0
      · simpa [stepEv, hp] using h
      · simp [stepEv, hp]
        omega

end LoadGen

namespace LoadGen

/-- C9: for every rate point's summary, `achieved_rate` (`ok_rps`) equals the
number of outcomes whose success flag is true divided by the configured
measured duration. -/
theorem c9_achieved_rate_eq_success_over_duration (rps : ℕ) (duration : ℚ)
    (sent : ℕ) (results : List RequestOutcome) :
    (mkSummary rps duration sent results).ok_rps
      = (results.countP (fun o => o.success) : ℚ) / duration := by
  simp [mkSummary, List.countP_eq_length_filter]

/-- C4: for every measured-phase event trace, the summary satisfies
`success_count + error_count = completed` and `completed ≤ sent`: every
recorded outcome consumed one previously enqueued item, and the error count
is defined as the completed outcomes that are not successes. -/
theorem c4_count_invariants (rps : ℕ) (duration : ℚ) (es : List Event) :
    (runPointSummary rps duration es).ok + (runPointSummary rps duration es).errors
        = (runPointSummary rps duration es).completed
    ∧ (runPointSummary rps duration es).completed ≤ (runPointSummary rps duration es).sent := by
  have hinv := sink_invariant es ⟨0, 0, []⟩ (by simp)
  constructor
  · simp only [runPointSummary, mkSummary]
    exact Nat.add_sub_cancel' (List.length_filter_le _ _)
  · simp only [runPointSummary, mkSummary]
    omega

/-- C5: a worker appends exactly one outcome per consumed item (the model
maps each item to the single outcome of its single attempt), and an item
whose attempt raised a transport error yields the outcome
`success = false`, `status_code = 0`, latency measured to the failure
instant, and the error description; that outcome is among the appended
ones. -/
theorem c5_transport_error_one_outcome (items : List ConsumedItem)
    (it : ConsumedItem) (msg : String) (t_fail : ℚ)
    (hmem : it ∈ items) (hres : it.result = ReqResult.exn msg t_fail) :
    (workerRun items).length = items.length
    ∧ workerHandle it.send_ts it.start it.result
        = { success := false, status := 0,
            latency_ms := (t_fail - it.send_ts) * 1000, error := msg }
    ∧ workerHandle it.send_ts it.start it.result ∈ workerRun items := by
  refine ⟨List.length_map _ _, ?_, ?_⟩
  · rw [hres]
    rfl
  · exact List.mem_map.mpr ⟨it, hmem, rfl⟩

/-- Witness for C5 at a single-item queue whose attempt raised a connection
error observed at time 9. -/
theorem c5_transport_error_one_outcome_witness :
    (workerRun [⟨0, 5, ReqResult.exn "connection refused" 9⟩]).length = 1
    ∧ workerHandle 0 5 (ReqResult.exn "connection refused" 9)
        = { success := false, status := 0,
            latency_ms := (9 - 0) * 1000, error := "connection refused" }
    ∧ workerHandle 0 5 (ReqResult.exn "connection refused" 9)
        ∈ workerRun [⟨0, 5, ReqResult.exn "connection refused" 9⟩] :=
  c5_transport_error_one_outcome
    [⟨0, 5, ReqResult.exn "connection refused" 9⟩]
    ⟨0, 5, ReqResult.exn "connection refused" 9⟩
    "connection refused" 9 (by simp) rfl

/-- C1 counterexample: an item stamped `issued_at = 0` is dequeued under
backlog and its request starts only at time 5; the response completes at
time 7.  The worker records `latency_ms = (7 - 5) * 1000 = 2000`, not the
`(7 - 0) * 1000 = 7000` that elapsed since `issued_at`, so the success-path
latency is not measured from the enqueue timestamp. -/
theorem c1_success_latency_not_from_issued_at :
    (workerHandle 0 5 (ReqResult.ok 200 7)).latency_ms = 2000
    ∧ (workerHandle 0 5 (ReqResult.ok 200 7)).latency_ms ≠ (7 - 0) * 1000 := by
  constructor
  · norm_num [workerHandle]
  · norm_num [workerHandle]

/-- C1 (amended): only the transport-error path measures latency from the
item's `issued_at` (`send_ts`); the success path measures from the worker's
own request start time, read after dequeue, and therefore reports a strictly
smaller latency than issue-to-completion whenever the item waited in the
queue. -/
theorem c1_latency_measurement (send_ts start t_done t_fail : ℚ)
    (status : ℤ) (msg : String) :
    (workerHandle send_ts start (ReqResult.exn msg t_fail)).latency_ms
        = (t_fail - send_ts) * 1000
    ∧ (workerHandle send_ts start (ReqResult.ok status t_done)).latency_ms
        = (t_done - start) * 1000
    ∧ (send_ts < start →
        (workerHandle send_ts start (ReqResult.ok status t_done)).latency_ms
          < (t_done - send_ts) * 1000) := by
  refine ⟨rfl, rfl, fun hq => ?_⟩
  show (t_done - start) * 1000 < (t_done - send_ts) * 1000
  nlinarith

/-- Witness for C1 (amended) at `issued_at = 0`, request start 5, completion
at 7, and a failure observed at 3. -/
theorem c1_latency_measurement_witness :
    (0 : ℚ) < 5
    ∧ (workerHandle 0 5 (ReqResult.exn "boom" 3)).latency_ms = (3 - 0) * 1000
    ∧ (workerHandle 0 5 (ReqResult.ok 200 7)).latency_ms = (7 - 5) * 1000
    ∧ (workerHandle 0 5 (ReqResult.ok 200 7)).latency_ms < (7 - 0) * 1000 :=
  ⟨by decide, (c1_latency_measurement 0 5 7 3 200 "boom").1,
    (c1_latency_measurement 0 5 7 3 200 "boom").2.1,
    (c1_latency_measurement 0 5 7 3 200 "boom").2.2 (by decide)⟩

/-- C8: whenever the warmup queue has fully drained (no pending items) when
`results.clear()` runs, the measured phase starts from the pristine state:
its sink holds no warmup outcome and no outcome of any earlier rate point,
so the final measured state is a function of the measured-phase events
alone. -/
theorem c8_sink_reset (warmup warmup2 measured : List Event)
    (h : (runEvents warmup ⟨0, 0, []⟩).pending = 0)
    (h2 : (runEvents warmup2 ⟨0, 0, []⟩).pending = 0) :
    (clearSink (runEvents warmup ⟨0, 0, []⟩)).results = []
    ∧ measuredPhase warmup measured = runEvents measured ⟨0, 0, []⟩
    ∧ measuredPhase warmup measured = measuredPhase warmup2 measured := by
  have key : ∀ w : List Event, (runEvents w ⟨0, 0, []⟩).pending = 0 →
      measuredPhase w measured = runEvents measured ⟨0, 0, []⟩ := by
    intro w hw
    unfold measuredPhase
    congr 1
    simp [clearSink, hw]
  refine ⟨rfl, key warmup h, ?_⟩
  rw [key warmup h, key warmup2 h2]

/-- Witness for C8: a warmup trace issuing one item that completed before the
clear, against the empty warmup trace. -/
theorem c8_sink_reset_witness :
    (runEvents [Event.enqueue 0, Event.record ⟨true, 200, 100, ""⟩] ⟨0, 0, []⟩).pending = 0
    ∧ (runEvents ([] : List Event) ⟨0, 0, []⟩).pending = 0
    ∧ ((clearSink (runEvents [Event.enqueue 0, Event.record ⟨true, 200, 100, ""⟩] ⟨0, 0, []⟩)).results = []
      ∧ measuredPhase [Event.enqueue 0, Event.record ⟨true, 200, 100, ""⟩] [Event.enqueue 1]
          = runEvents [Event.enqueue 1] ⟨0, 0, []⟩
      ∧ measuredPhase [Event.enqueue 0, Event.record ⟨true, 200, 100, ""⟩] [Event.enqueue 1]
          = measuredPhase [] [Event.enqueue 1]) :=
  ⟨by decide, by decide,
    c8_sink_reset [Event.enqueue 0, Event.record ⟨true, 200, 100, ""⟩] []
      [Event.enqueue 1] (by decide) (by decide)⟩

/-- C3: when no successful outcome exists for a point, the mean and every
percentile of the summary are `none` (not zero, and no division is
attempted); when at least one successful outcome exists, all of them carry a
value. -/
theorem c3_stats_none_iff_no_success (rps : ℕ) (duration : ℚ) (sent : ℕ)
    (results : List RequestOutcome) :
    (results.countP (fun o => o.success) = 0 →
      (mkSummary rps duration sent results).avg_ms = none
      ∧ (mkSummary rps duration sent results).p50_ms = none
      ∧ (mkSummary rps duration sent results).p90_ms = none
      ∧ (mkSummary rps duration sent results).p95_ms = none
      ∧ (mkSummary rps duration sent results).p99_ms = none)
    ∧ (results.countP (fun o => o.success) ≠ 0 →
      (∃ a, (mkSummary rps duration sent results).avg_ms = some a)
      ∧ (∃ a, (mkSummary rps duration sent results).p50_ms = some a)
      ∧ (∃ a, (mkSummary rps duration sent results).p90_ms = some a)
      ∧ (∃ a, (mkSummary rps duration sent results).p95_ms = some a)
      ∧ (∃ a, (mkSummary rps duration sent results).p99_ms = some a)) := by
  constructor
  · intro h0
    have hnil : results.filter (fun o => o.success) = [] := by
      rw [List.countP_eq_length_filter] at h0
      exact List.length_eq_zero.mp h0
    simp [mkSummary, hnil, percentile, List.insertionSort]
  · intro h0
    have hne : results.filter (fun o => o.success) ≠ [] := by
      rw [List.countP_eq_length_filter] at h0
      intro hh
      exact h0 (by rw [hh]; rfl)
    have hsortne :
        List.insertionSort (· ≤ ·)
          ((results.filter (fun o => o.success)).map (fun o => o.latency_ms)) ≠ [] := by
      intro hh
      apply hne
      have hl := List.length_insertionSort (· ≤ ·)
        ((results.filter (fun o => o.success)).map (fun o => o.latency_ms))
      rw [hh] at hl
      simp only [List.length_nil, List.length_map] at hl
      exact List.length_eq_zero.mp hl.symm
    refine ⟨?_, ?_, ?_, ?_, ?_⟩
    · simp only [mkSummary]
      rw [if_neg hsortne]
      exact ⟨_, rfl⟩
    · simp only [mkSummary]
      rw [percentile_eq _ hsortne]
      exact ⟨_, rfl⟩
    · simp only [mkSummary]
      rw [percentile_eq _ hsortne]
      exact ⟨_, rfl⟩
    · simp only [mkSummary]
      rw [percentile_eq _ hsortne]
      exact ⟨_, rfl⟩
    · simp only [mkSummary]
      rw [percentile_eq _ hsortne]
      exact ⟨_, rfl⟩

/-- Witness for C3 at a one-failure list (all statistics absent) and a
one-success list (all statistics present). -/
theorem c3_stats_none_iff_no_success_witness :
    (([⟨false, 0, 100, "e"⟩] : List RequestOutcome).countP (fun o => o.success) = 0
      ∧ ((mkSummary 1 10 1 [⟨false, 0, 100, "e"⟩]).avg_ms = none
        ∧ (mkSummary 1 10 1 [⟨false, 0, 100, "e"⟩]).p50_ms = none
        ∧ (mkSummary 1 10 1 [⟨false, 0, 100, "e"⟩]).p90_ms = none
        ∧ (mkSummary 1 10 1 [⟨false, 0, 100, "e"⟩]).p95_ms = none
        ∧ (mkSummary 1 10 1 [⟨false, 0, 100, "e"⟩]).p99_ms = none))
    ∧ (([⟨true, 200, 100, ""⟩] : List RequestOutcome).countP (fun o => o.success) ≠ 0
      ∧ ((∃ a, (mkSummary 1 10 1 [⟨true, 200, 100, ""⟩]).avg_ms = some a)
        ∧ (∃ a, (mkSummary 1 10 1 [⟨true, 200, 100, ""⟩]).p50_ms = some a)
        ∧ (∃ a, (mkSummary 1 10 1 [⟨true, 200, 100, ""⟩]).p90_ms = some a)
        ∧ (∃ a, (mkSummary 1 10 1 [⟨true, 200, 100, ""⟩]).p95_ms = some a)
        ∧ (∃ a, (mkSummary 1 10 1 [⟨true, 200, 100, ""⟩]).p99_ms = some a))) :=
  ⟨⟨by decide,
      (c3_stats_none_iff_no_success 1 10 1 [⟨false, 0, 100, "e"⟩]).1 (by decide)⟩,
    ⟨by decide,
      (c3_stats_none_iff_no_success 1 10 1 [⟨true, 200, 100, ""⟩]).2 (by decide)⟩⟩

lemma runEvents_replicate_enqueue (n : ℕ) (t : ℚ) (s : SinkState) :
    runEvents (List.replicate n (Event.enqueue t)) s
      = { sent := s.sent + n, pending := s.pending + n, results := s.results } := by
  induction n generalizing s with
  | zero => simp [runEvents]
  | succ k ih =>
    rw [List.replicate_succ]
    show runEvents _ (stepEv s (Event.enqueue t)) = _
    rw [ih]
    simp only [stepEv, SinkState.mk.injEq, and_true]
    omega

lemma runEvents_map_record (os : List RequestOutcome) (s : SinkState)
    (h : os.length ≤ s.pending) :
    runEvents (os.map Event.record) s
      = { sent := s.sent, pending := s.pending - os.length,
          results := s.results ++ os } := by
  induction os generalizing s with
  | nil => simp [runEvents]
  | cons o rest ih =>
    show runEvents _ (stepEv s (Event.record o)) = _
    have hlen : rest.length + 1 ≤ s.pending := by
      simpa using h
    have hp : ¬ s.pending = 0 := by omega
    simp only [stepEv, if_neg hp]
    rw [ih _ (show rest.length ≤ s.pending - 1 by omega)]
    simp only [SinkState.mk.injEq, true_and, List.length_cons]
    refine ⟨by omega, by simp⟩

/-- C6: in the drain-timeout scenario — 100 items enqueued in the measured
phase, only the first 95 recorded when the drain deadline fires — the run
still produces a summary: `completed = 95 < 100 = sent`, the 5 abandoned
items appear in no count, and `error_count` covers only failures among the
95 recorded outcomes (so it never exceeds `completed`). -/
theorem c6_drain_timeout_abandons_items (os : List RequestOutcome) (t : ℚ)
    (h : os.length = 95) :
    (drainScenarioState os t).results = os
    ∧ (drainScenarioState os t).sent = 100
    ∧ (mkSummary 10 10 (drainScenarioState os t).sent (drainScenarioState os t).results).completed = 95
    ∧ (mkSummary 10 10 (drainScenarioState os t).sent (drainScenarioState os t).results).sent = 100
    ∧ (mkSummary 10 10 (drainScenarioState os t).sent (drainScenarioState os t).results).completed
        < (mkSummary 10 10 (drainScenarioState os t).sent (drainScenarioState os t).results).sent
    ∧ (mkSummary 10 10 (drainScenarioState os t).sent (drainScenarioState os t).results).errors
        = 95 - os.countP (fun o => o.success)
    ∧ (mkSummary 10 10 (drainScenarioState os t).sent (drainScenarioState os t).results).errors
        ≤ (mkSummary 10 10 (drainScenarioState os t).sent (drainScenarioState os t).results).completed := by
  have hstate : drainScenarioState os t
      = { sent := 100, pending := 100 - os.length, results := os } := by
    unfold drainScenarioState runEvents
    rw [List.foldl_append]
    show runEvents (os.map Event.record) (runEvents (List.replicate 100 (Event.enqueue t)) _) = _
    rw [runEvents_replicate_enqueue]
    rw [runEvents_map_record _ _ (show os.length ≤ 0 + 100 by omega)]
    simp
  have hres : (drainScenarioState os t).results = os := by rw [hstate]
  have hsent : (drainScenarioState os t).sent = 100 := by rw [hstate]
  rw [hres, hsent]
  have hcompleted : (mkSummary 10 10 100 os).completed = os.length := rfl
  have hsent2 : (mkSummary 10 10 100 os).sent = 100 := rfl
  have herr : (mkSummary 10 10 100 os).errors
      = os.length - (os.filter (fun o => o.success)).length := rfl
  refine ⟨rfl, rfl, ?_, hsent2, ?_, ?_, ?_⟩
  · rw [hcompleted, h]
  · rw [hcompleted, hsent2, h]
    omega
  · rw [herr, h, List.countP_eq_length_filter]
  · rw [herr, hcompleted]
    omega

/-- Witness for C6 at 95 identical failed outcomes. -/
theorem c6_drain_timeout_abandons_items_witness :
    (List.replicate 95 (⟨false, 0, 100, "x"⟩ : RequestOutcome)).length = 95
    ∧ (drainScenarioState (List.replicate 95 ⟨false, 0, 100, "x"⟩) 0).results
        = List.replicate 95 ⟨false, 0, 100, "x"⟩
    ∧ (drainScenarioState (List.replicate 95 ⟨false, 0, 100, "x"⟩) 0).sent = 100 :=
  ⟨by decide,
    (c6_drain_timeout_abandons_items (List.replicate 95 ⟨false, 0, 100, "x"⟩) 0 (by decide)).1,
    (c6_drain_timeout_abandons_items (List.replicate 95 ⟨false, 0, 100, "x"⟩) 0 (by decide)).2.1⟩

lemma pacedLoop_fixed_increment (interval endT : ℚ) (clocks : List ℚ)
    (s : PaceState) :
    ∃ k : ℕ, (pacedLoop interval endT clocks s).sent = s.sent + k
      ∧ (pacedLoop interval endT clocks s).next_send = s.next_send + k * interval
      ∧ (pacedLoop interval endT clocks s).items.length = s.items.length + k := by
  induction clocks generalizing s with
  | nil => exact ⟨0, by simp [pacedLoop]⟩
  | cons now rest ih =>
    simp only [pacedLoop]
    by_cases hlt : now < endT
    · rw [if_pos hlt]
      obtain ⟨k, h1, h2, h3⟩ := ih (pacedStep interval now s)
      by_cases hsend : s.next_send ≤ now
      · refine ⟨k + 1, ?_, ?_, ?_⟩
        · rw [h1]
          simp only [pacedStep, if_pos hsend]
          omega
        · rw [h2]
          simp only [pacedStep, if_pos hsend]
          push_cast
          ring
        · rw [h3]
          simp only [pacedStep, if_pos hsend, List.length_append, List.length_cons,
            List.length_nil]
          omega
      · refine ⟨k, ?_, ?_, ?_⟩
        · rw [h1]
          simp [pacedStep, hsend]
        · rw [h2]
          simp [pacedStep, hsend]
        · rw [h3]
          simp [pacedStep, hsend]
    · rw [if_neg hlt]
      exact ⟨0, by simp⟩

/-- C7: the enqueuer's deadline advances only by the fixed increment
`1 / rps` per emitted item — after any run over any clock readings,
`next_send = start + sent * (1 / rps)`, never recomputed from a post-sleep
clock — the returned value counts exactly the items put on the queue, and on
the ideal clock for rate 10 and duration 2 s the count 20 is within 1 of
`r * d = 20`. -/
theorem c7_paced_enqueue_schedule (rps seconds start : ℚ) (clocks : List ℚ) :
    (pacedLoop (1 / rps) (start + seconds) clocks ⟨start, 0, []⟩).next_send
        = start + ((pacedLoop (1 / rps) (start + seconds) clocks ⟨start, 0, []⟩).sent : ℚ) * (1 / rps)
    ∧ paced_enqueue rps seconds start clocks
        = (pacedLoop (1 / rps) (start + seconds) clocks ⟨start, 0, []⟩).items.length
    ∧ paced_enqueue 10 2 0 idealClocks = 20
    ∧ |(paced_enqueue 10 2 0 idealClocks : ℚ) - 10 * 2| ≤ 1 := by
  have hgen := pacedLoop_fixed_increment (1 / rps) (start + seconds) clocks ⟨start, 0, []⟩
  obtain ⟨k, h1, h2, h3⟩ := hgen
  have hcount : paced_enqueue 10 2 0 idealClocks = 20 := by
    norm_num [paced_enqueue, pacedLoop, pacedStep, idealClocks]
  refine ⟨?_, ?_, hcount, ?_⟩
  · rw [h2, h1]
    norm_num
  · unfold paced_enqueue
    rw [h1, h3]
    simp
  · rw [hcount]
    norm_num

end LoadGen

namespace MakeSummary

lemma pyRound_ge_floor (x : ℚ) : ⌊x⌋ ≤ pyRound x := by
  unfold pyRound
  split_ifs <;> omega

lemma pyRound_le_floor_add_one (x : ℚ) : pyRound x ≤ ⌊x⌋ + 1 := by
  unfold pyRound
  split_ifs <;> omega

lemma pyRound_le_int {x : ℚ} {m : ℤ} (h : x ≤ (m : ℚ)) : pyRound x ≤ m := by
  have hf : ⌊x⌋ ≤ m := by
    have := Int.floor_le_floor h
    rwa [Int.floor_intCast] at this
  rcases eq_or_lt_of_le hf with heq | hlt
  · have hx : x = (m : ℚ) := by
      refine le_antisymm h ?_
      rw [← heq]
      exact Int.floor_le x
    subst hx
    unfold pyRound
    rw [Int.fract_intCast]
    rw [if_pos (by norm_num)]
    rw [Int.floor_intCast]
  · exact (pyRound_le_floor_add_one x).trans (by omega)

lemma pyRound_mono {x y : ℚ} (h : x ≤ y) : pyRound x ≤ pyRound y := by
  rcases lt_or_eq_of_le (Int.floor_le_floor h) with hlt | heq
  · exact (pyRound_le_floor_add_one x).trans
      ((by omega : ⌊x⌋ + 1 ≤ ⌊y⌋).trans (pyRound_ge_floor y))
  · have hfr : Int.fract x ≤ Int.fract y := by
      unfold Int.fract
      rw [heq]
      linarith
    unfold pyRound
    rw [heq]
    split_ifs <;> first | omega | (exfalso; linarith)

lemma pyRound_idx_lt {p : ℚ} {n : ℕ} (hn : 1 ≤ n) (h1 : p ≤ 1) :
    (pyRound ((p / 100) * ((n : ℚ) - 1))).toNat < n := by
  have hn1 : (0 : ℚ) ≤ (n : ℚ) - 1 := by
    have : (1 : ℚ) ≤ (n : ℚ) := by exact_mod_cast hn
    linarith
  have hp100 : p / 100 ≤ 1 := by linarith
  have hle : (p / 100) * ((n : ℚ) - 1) ≤ (((n : ℤ) - 1 : ℤ) : ℚ) := by
    push_cast
    nlinarith
  have := Int.toNat_le_toNat (pyRound_le_int hle)
  omega

lemma pyRound_idx_mono {p q : ℚ} {n : ℕ} (hn : 1 ≤ n) (hpq : p ≤ q) :
    (pyRound ((p / 100) * ((n : ℚ) - 1))).toNat
      ≤ (pyRound ((q / 100) * ((n : ℚ) - 1))).toNat := by
  have hn1 : (0 : ℚ) ≤ (n : ℚ) - 1 := by
    have : (1 : ℚ) ≤ (n : ℚ) := by exact_mod_cast hn
    linarith
  exact Int.toNat_le_toNat
    (pyRound_mono (mul_le_mul_of_nonneg_right (by linarith) hn1))

/-- The non-empty branch of `pctl` spelled out: sort, then index by Python
rounding of `(p/100) * (len - 1)`. -/
lemma pctl_eq (xs : List ℚ) (h : xs ≠ []) (p : ℚ) :
    pctl xs p
      = some ((List.insertionSort (· ≤ ·) xs).getD
          (pyRound ((p / 100) * (((List.insertionSort (· ≤ ·) xs).length : ℚ) - 1))).toNat 0) := by
  unfold pctl
  rw [if_neg h]

end MakeSummary

namespace LoadGen

/-- C2 counterexample: `pctl` in `make_summary.py` does not use
`floor(p × (count − 1))` — on `[10,20,30,40,50]` at p95 it computes index
`round(0.95 × 4) = round(3.8) = 4` and returns 50, not the 40 the claim
asserts for every percentile function. -/
theorem c2_pctl_p95_returns_50 :
    MakeSummary.pctl [10, 20, 30, 40, 50] 95 = some 50
    ∧ MakeSummary.pctl [10, 20, 30, 40, 50] 95 ≠ some 40 := by
  have h : MakeSummary.pctl [10, 20, 30, 40, 50] 95 = some 50 := by
    norm_num [MakeSummary.pctl, MakeSummary.pyRound, List.insertionSort,
      List.orderedInsert, Int.fract, List.getD]
    decide
  refine ⟨h, ?_⟩
  rw [h]
  norm_num

/-- C2 (amended): `percentile` in `loadgen.py` returns the element at index
`floor(p × (count − 1))` of a non-empty sorted input, giving 30/40/40 at
p50/p95/p99 on `[10,20,30,40,50]`; `pctl` in `make_summary.py` instead
rounds `(p/100) × (count − 1)` to the nearest index, giving 30 at p50 but 50
at p95 and at p99 on that input. -/
theorem c2_percentile_floor_pctl_round (xs : List ℚ) (h : xs ≠ []) (p : ℚ) :
    percentile xs p = some (xs.getD (⌊p * ((xs.length : ℚ) - 1)⌋).toNat 0)
    ∧ percentile [10, 20, 30, 40, 50] (50 / 100) = some 30
    ∧ percentile [10, 20, 30, 40, 50] (95 / 100) = some 40
    ∧ percentile [10, 20, 30, 40, 50] (99 / 100) = some 40
    ∧ MakeSummary.pctl [10, 20, 30, 40, 50] 50 = some 30
    ∧ MakeSummary.pctl [10, 20, 30, 40, 50] 95 = some 50
    ∧ MakeSummary.pctl [10, 20, 30, 40, 50] 99 = some 50 := by
  refine ⟨percentile_eq xs h p, ?_, ?_, ?_, ?_, ?_, ?_⟩ <;>
    (norm_num [percentile, MakeSummary.pctl, MakeSummary.pyRound, List.insertionSort,
      List.orderedInsert, Int.fract, List.getD]
     decide)

/-- Witness for C2 (amended) at the specification's example list and p95. -/
theorem c2_percentile_floor_pctl_round_witness :
    ([10, 20, 30, 40, 50] : List ℚ) ≠ []
    ∧ percentile [10, 20, 30, 40, 50] (95 / 100)
        = some (([10, 20, 30, 40, 50] : List ℚ).getD
            (⌊(95 / 100 : ℚ) * (((([10, 20, 30, 40, 50] : List ℚ).length : ℚ)) - 1)⌋).toNat 0) :=
  ⟨by decide, (c2_percentile_floor_pctl_round [10, 20, 30, 40, 50] (by decide) (95 / 100)).1⟩

/-- C10: each of the three percentile functions, on a non-empty ascending
input and quantiles `0 ≤ p ≤ q ≤ 1`, returns an element of the input list
(never an interpolated value), and the returned value is monotone
non-decreasing in the quantile. -/
theorem c10_percentile_member_monotone (xs : List ℚ) (p q : ℚ) (hne : xs ≠ [])
    (hs : xs.Sorted (· ≤ ·)) (h0 : 0 ≤ p) (hpq : p ≤ q) (h1 : q ≤ 1) :
    (∃ v ∈ xs, percentile xs p = some v)
    ∧ (percentile xs p).getD 0 ≤ (percentile xs q).getD 0
    ∧ (∃ v ∈ xs, Combine.percentile xs p = some v)
    ∧ (Combine.percentile xs p).getD 0 ≤ (Combine.percentile xs q).getD 0
    ∧ (∃ v ∈ xs, MakeSummary.pctl xs p = some v)
    ∧ (MakeSummary.pctl xs p).getD 0 ≤ (MakeSummary.pctl xs q).getD 0 := by
  have hn : 1 ≤ xs.length := List.length_pos.mpr hne
  have hp1 : p ≤ 1 := hpq.trans h1
  have hq0 : 0 ≤ q := h0.trans hpq
  refine ⟨?_, ?_, ?_, ?_, ?_, ?_⟩
  · rw [percentile_eq xs hne p]
    exact ⟨_, getD_mem_of_lt _ _ (floor_idx_lt hn hp1), rfl⟩
  · rw [percentile_eq xs hne p, percentile_eq xs hne q]
    simp only [Option.getD_some]
    exact sorted_getD_mono xs hs (floor_idx_mono hn hpq) (floor_idx_lt hn h1)
  · unfold Combine.percentile
    rw [if_neg hne]
    by_cases hc0 : p ≤ 0
    · rw [if_pos hc0]
      exact ⟨_, getD_mem_of_lt _ _ (by omega), rfl⟩
    · rw [if_neg hc0]
      by_cases hc1 : 1 ≤ p
      · rw [if_pos hc1]
        exact ⟨_, getD_mem_of_lt _ _ (by omega), rfl⟩
      · rw [if_neg hc1]
        exact ⟨_, getD_mem_of_lt _ _ (floor_idx_lt hn hp1), rfl⟩
  · unfold Combine.percentile
    rw [if_neg hne, if_neg hne]
    by_cases hc0 : p ≤ 0
    · rw [if_pos hc0]
      by_cases hd0 : q ≤ 0
      · rw [if_pos hd0]
      · rw [if_neg hd0]
        by_cases hd1 : 1 ≤ q
        · rw [if_pos hd1]
          simp only [Option.getD_some]
          exact sorted_getD_mono xs hs (Nat.zero_le _) (by omega)
        · rw [if_neg hd1]
          simp only [Option.getD_some]
          exact sorted_getD_mono xs hs (Nat.zero_le _)
            (floor_idx_lt hn (le_of_lt (lt_of_not_le hd1)))
    · rw [if_neg hc0]
      have hd0 : ¬ q ≤ 0 := fun hh => hc0 (hpq.trans hh)
      rw [if_neg hd0]
      by_cases hc1 : 1 ≤ p
      · rw [if_pos hc1, if_pos (hc1.trans hpq)]
      · rw [if_neg hc1]
        by_cases hd1 : 1 ≤ q
        · rw [if_pos hd1]
          simp only [Option.getD_some]
          have hidx := floor_idx_lt hn (le_of_lt (lt_of_not_le hc1)) (p := p)
          exact sorted_getD_mono xs hs (by omega) (by omega)
        · rw [if_neg hd1]
          simp only [Option.getD_some]
          exact sorted_getD_mono xs hs (floor_idx_mono hn hpq)
            (floor_idx_lt hn (le_of_lt (lt_of_not_le hd1)))
  · rw [MakeSummary.pctl_eq xs hne p]
    have hlen : (List.insertionSort (· ≤ ·) xs).length = xs.length :=
      List.length_insertionSort _ _
    refine ⟨_, ?_, rfl⟩
    apply List.mem_insertionSort (· ≤ ·) |>.mp
    apply getD_mem_of_lt
    rw [hlen]
    exact MakeSummary.pyRound_idx_lt hn hp1
  · rw [MakeSummary.pctl_eq xs hne p, MakeSummary.pctl_eq xs hne q]
    simp only [Option.getD_some]
    have hlen : (List.insertionSort (· ≤ ·) xs).length = xs.length :=
      List.length_insertionSort _ _
    have hsorted : (List.insertionSort (· ≤ ·) xs).Sorted (· ≤ ·) :=
      List.sorted_insertionSort _ _
    have hn2 : 1 ≤ (List.insertionSort (· ≤ ·) xs).length := by omega
    exact sorted_getD_mono _ hsorted
      (MakeSummary.pyRound_idx_mono hn2 hpq)
      (MakeSummary.pyRound_idx_lt hn2 h1)

/-- Witness for C10 at `[10,20,30]`, `p = 0`, `q = 1`. -/
theorem c10_percentile_member_monotone_witness :
    ([10, 20, 30] : List ℚ) ≠ []
    ∧ ([10, 20, 30] : List ℚ).Sorted (· ≤ ·)
    ∧ (0 : ℚ) ≤ 0 ∧ (0 : ℚ) ≤ 1 ∧ (1 : ℚ) ≤ 1
    ∧ ((∃ v ∈ ([10, 20, 30] : List ℚ), percentile [10, 20, 30] 0 = some v)
      ∧ (percentile [10, 20, 30] 0).getD 0 ≤ (percentile [10, 20, 30] 1).getD 0
      ∧ (∃ v ∈ ([10, 20, 30] : List ℚ), Combine.percentile [10, 20, 30] 0 = some v)
      ∧ (Combine.percentile [10, 20, 30] 0).getD 0
          ≤ (Combine.percentile [10, 20, 30] 1).getD 0
      ∧ (∃ v ∈ ([10, 20, 30] : List ℚ), MakeSummary.pctl [10, 20, 30] 0 = some v)
      ∧ (MakeSummary.pctl [10, 20, 30] 0).getD 0
          ≤ (MakeSummary.pctl [10, 20, 30] 1).getD 0) :=
  ⟨by decide, by decide, by decide, by decide, by decide,
    c10_percentile_member_monotone [10, 20, 30] 0 1 (by decide) (by decide)
      (by decide) (by decide) (by decide)⟩

end LoadGen
